import Mathlib

/-!
Verification of the taccuino note-taking tool (JustSouichi/taccuino).

The repository contains two implementations of the note store:
  * an inline store in src/index.js (createNote, getAllNotes, updateNote,
    deleteNote, searchNotes, exportNotes, importNotes), modelled in the
    IndexJs namespace below;
  * src/notes.js (shipped here as src/unnamed/part_003: createNote,
    getAllNotes, getNoteById, updateNote, deleteNote, searchNotes),
    modelled in the Notes namespace below.

Modelling conventions, shared by both:
  * The notes directory holds one JSON file per note, named "<id>.json".
    A directory state in which every file parses is modelled as a
    'Store := List Note' in directory-listing order, with the invariant
    that the file name equals the record's id field (every write in the
    source writes the record to getNoteFilePath(record.id)).
    A directory that may hold corrupt files is modelled separately for
    getAllNotes as a list of (file name, parse result) pairs.
  * ISO-8601 timestamp strings are order-isomorphic to the instants they
    denote, and the sort comparator parses them back into numbers, so
    timestamps are modelled as naturals (milliseconds since the epoch).
    Each store operation performs all of its clock reads in one event-loop
    turn, modelled by a single 'now' parameter per call.
  * Random sources (Math.random in index.js, uuidv4 in notes.js) are
    modelled as explicit oracle string parameters.
  * A JavaScript function that falls off the end without a return
    statement evaluates to undefined; an operation whose source has no
    return statement is modelled as returning 'none' in an 'Option Note'
    slot.  A function that can throw is modelled with 'Except String'.
-/

/-- A persisted note record: the JSON object
{id, title, content, created_at, updated_at} written by both stores.
(index.js never writes further fields; notes.js also writes an unused
stub field externalFiles: [], which carries no information and is
omitted.) -/
structure Note where
  id : String
  title : String
  content : String
  created_at : Nat
  updated_at : Nat
deriving Repr, DecidableEq

/-- The notes directory in a fully parsed state: the parsed records in
directory-listing order, one per file, file name = id. -/
abbrev Store := List Note

/-- fs.writeFileSync(getNoteFilePath(note.id), JSON.stringify(note)):
overwrite the file named note.id if present, otherwise create it (a new
file is appended to the directory listing; no theorem below depends on
where the new file lands in the listing). -/
def writeRecord (s : Store) (note : Note) : Store :=
  if s.any (fun n => n.id == note.id) then
    s.map (fun n => if n.id == note.id then note else n)
  else
    s ++ [note]

/-- JavaScript character-wise toLowerCase (String.prototype.toLowerCase,
modelled code-unit-wise with Char.toLower). -/
def jsToLower (s : String) : String :=
  String.mk (s.data.map Char.toLower)

/-- Does the needle match at the very start of the haystack?
(the anchored comparison underlying String.prototype.includes). -/
def leadMatch : List Char → List Char → Bool
  | [], _ => true
  | _ :: _, [] => false
  | a :: as, b :: bs => a == b && leadMatch as bs

/-- String.prototype.includes(needle) on the character lists: scan every
position of the haystack for an anchored match. -/
def includesList : List Char → List Char → Bool
  | [], needle => leadMatch needle []
  | a :: rest, needle => leadMatch needle (a :: rest) || includesList rest needle

/-- hay.includes(needle) for JavaScript strings. -/
def jsIncludes (hay needle : String) : Bool :=
  includesList hay.data needle.data

/-- String.prototype.trim(): strip whitespace from both ends. -/
def jsTrim (s : String) : String :=
  String.mk (((s.data.dropWhile Char.isWhitespace).reverse.dropWhile
    Char.isWhitespace).reverse)

/-- One digit of Number.prototype.toString(36): 0-9 then a-z. -/
def base36Digit (n : Nat) : Char :=
  if n < 10 then Char.ofNat (48 + n) else Char.ofNat (87 + n)

/-- Digit-accumulating loop of Number.prototype.toString(36); the first
argument is fuel bounding the number of divisions, in the style of the
core library's digit printer (n + 1 fuel always suffices because the
quotient shrinks at every step). -/
def natToBase36Go : Nat → Nat → List Char → List Char
  | 0, _, acc => acc
  | fuel + 1, n, acc =>
    if n / 36 = 0 then base36Digit (n % 36) :: acc
    else natToBase36Go fuel (n / 36) (base36Digit (n % 36) :: acc)

/-- Date.now().toString(36): base-36 rendering of a natural. -/
def natToBase36 (n : Nat) : String :=
  String.mk (natToBase36Go (n + 1) n [])

/-- Sort order of getAllNotes in both stores: the comparator
(a, b) => new Date(b.created_at) - new Date(a.created_at) places a no
later than b exactly when b.created_at <= a.created_at (descending).
ECMAScript sort is a stable sort with an unspecified algorithm; it is
modelled by the stable List.insertionSort over this relation. -/
def createdAtDesc (a b : Note) : Prop :=
  b.created_at ≤ a.created_at

instance : DecidableRel createdAtDesc :=
  fun a b => Nat.decLe b.created_at a.created_at

instance : IsTotal Note createdAtDesc :=
  ⟨fun a b => Nat.le_total b.created_at a.created_at⟩

instance : IsTrans Note createdAtDesc :=
  ⟨fun _ _ _ hab hbc => Nat.le_trans hbc hab⟩

/-- Case-insensitive match of searchNotes in both stores:
note.title.toLowerCase().includes(q) || note.content.toLowerCase().includes(q)
with q the lower-cased query. -/
def matchesQuery (q : String) (n : Note) : Bool :=
  jsIncludes (jsToLower n.title) (jsToLower q) ||
  jsIncludes (jsToLower n.content) (jsToLower q)

namespace IndexJs

/-- src/index.js lines 46-48, generateId():
Date.now().toString(36) + a dash + a Math.random-derived suffix; the
clock reading and the random suffix are explicit parameters. -/
def generateId (now : Nat) (rand : String) : String :=
  natToBase36 now ++ "-" ++ rand

/-- src/index.js lines 53-63, createNote(title, content): build the
record with a generated id and both timestamps stamped to now, write it,
and fall off the end (the JS function has no return statement, so its
value is undefined, modelled as none). -/
def createNote (title content : String) (now : Nat) (rand : String)
    (s : Store) : Option Note × Store :=
  let note : Note :=
    { id := generateId now rand
      title := title
      content := content
      created_at := now
      updated_at := now }
  (none, writeRecord s note)

/-- src/index.js lines 68-81, getAllNotes(): read every .json file in
the directory (a Store holds exactly those, already parsed) and sort by
created_at descending. -/
def getAllNotes (s : Store) : List Note :=
  List.insertionSort createdAtDesc s

/-- src/index.js lines 86-96, updateNote(noteId, {title, content}):
throw if the file does not exist; otherwise parse it, replace title and
content, restamp updated_at, write back, and fall off the end (no return
statement: the value is undefined, modelled as none). -/
def updateNote (noteId title content : String) (now : Nat)
    (s : Store) : Except String (Option Note × Store) :=
  match List.find? (fun n => n.id == noteId) s with
  | none => Except.error "Note does not exist"
  | some note =>
    let note' : Note :=
      { note with title := title, content := content, updated_at := now }
    Except.ok (none, writeRecord s note')

/-- src/index.js lines 101-108, deleteNote(noteId): unlink the file if
it exists, otherwise throw. -/
def deleteNote (noteId : String) (s : Store) : Except String Store :=
  if s.any (fun n => n.id == noteId) then
    Except.ok (s.filter (fun n => !(n.id == noteId)))
  else
    Except.error "Note not found"

/-- src/index.js lines 113-120, searchNotes(query): filter getAllNotes()
by the case-insensitive substring match on title or content. -/
def searchNotes (query : String) (s : Store) : List Note :=
  (getAllNotes s).filter (matchesQuery query)

/-- src/index.js lines 958-967, exportNotes(filePath): the JSON array
written to the export file is exactly getAllNotes(). -/
def exportNotes (s : Store) : List Note :=
  getAllNotes s

end IndexJs

namespace Notes

/-- src/unnamed/part_003 (src/notes.js) lines 21-33, createNote(title,
content): id from uuidv4() (an oracle parameter), title defaulted to
"Untitled" when falsy, content defaulted to "" when falsy, both
timestamps stamped to now; the record is written and returned.
(The unused stub field externalFiles: [] is omitted.) -/
def createNote (title content : String) (now : Nat) (uuid : String)
    (s : Store) : Note × Store :=
  let note : Note :=
    { id := uuid
      title := if title == "" then "Untitled" else title
      content := if content == "" then "" else content
      created_at := now
      updated_at := now }
  (note, writeRecord s note)

/-- src/unnamed/part_003 lines 35-47, getAllNotes(): identical logic to
the index.js getAllNotes. -/
def getAllNotes (s : Store) : List Note :=
  List.insertionSort createdAtDesc s

/-- src/unnamed/part_003 lines 49-55, getNoteById(noteId): parse the
file named noteId if it exists, else return null (none). -/
def getNoteById (noteId : String) (s : Store) : Option Note :=
  List.find? (fun n => n.id == noteId) s

/-- src/unnamed/part_003 lines 57-66, updateNote(noteId, updates):
throw if getNoteById gives null; otherwise Object.assign the updates
(every caller passes exactly {title, content}), restamp updated_at,
write back and return the record. -/
def updateNote (noteId title content : String) (now : Nat)
    (s : Store) : Except String (Note × Store) :=
  match getNoteById noteId s with
  | none => Except.error "Note not found"
  | some note =>
    let note' : Note :=
      { note with title := title, content := content, updated_at := now }
    Except.ok (note', writeRecord s note')

/-- src/unnamed/part_003 lines 68-75, deleteNote(noteId): unlink and
return true if the file exists, otherwise return false — this variant
never throws. -/
def deleteNote (noteId : String) (s : Store) : Bool × Store :=
  if s.any (fun n => n.id == noteId) then
    (true, s.filter (fun n => !(n.id == noteId)))
  else
    (false, s)

/-- src/unnamed/part_003 lines 87-93, searchNotes(query): filter
getAllNotes() by the case-insensitive substring match on title or
content (the query is lower-cased at each use; same value). -/
def searchNotes (query : String) (s : Store) : List Note :=
  (getAllNotes s).filter (matchesQuery query)

end Notes

/-- One element of the JSON array read by importNotes (src/index.js
lines 973-1022).  The code requires noteData.id, .title and .content to
be truthy strings and reads noteData.created_at with a truthiness
fallback; a missing or empty created_at is modelled as none (for a
string field, falsy means missing or the empty string). -/
structure ImportRecord where
  id : String
  title : String
  content : String
  created_at : Option Nat
deriving Repr, DecidableEq

/-- The element of the exported JSON array produced for a note: every
exported field is the note's field, and an exported ISO timestamp string
is never empty, hence always truthy (some). -/
def noteToImport (n : Note) : ImportRecord :=
  { id := n.id, title := n.title, content := n.content
    created_at := some n.created_at }

/-- The mutated record of the existing-id import branch (src/index.js
lines 997-1002): title/content replaced, created_at taken from the given
file when truthy, updated_at restamped to the time of the import. -/
def updatedNote (now : Nat) (nd : ImportRecord) (existing : Note) : Note :=
  { existing with
    title := nd.title
    content := nd.content
    created_at := nd.created_at.getD existing.created_at
    updated_at := now }

/-- The newNote object of the unknown-id import branch (src/index.js
lines 1006-1012): the given id, the imported created_at defaulted to,
and updated_at stamped to, the time of the import. -/
def importedNote (now : Nat) (nd : ImportRecord) : Note :=
  { id := nd.id, title := nd.title, content := nd.content
    created_at := nd.created_at.getD now, updated_at := now }

/-- The truthiness test of the import loop (src/index.js line 989),
negated: a record is processed rather than skipped exactly when its id,
title and content are all non-empty. -/
def keptRecord (nd : ImportRecord) : Bool :=
  !(nd.id == "" || nd.title == "" || nd.content == "")

namespace IndexJs

/-- One iteration of the importedNotes.forEach loop in importNotes
(src/index.js lines 987-1016), acting on (store, countCreated,
countUpdated): skip the record when id, title or content is falsy;
otherwise upsert by id — if the file exists, keep the record on disk but
replace title/content, take the imported created_at when truthy, and
restamp updated_at to now; if not, create the record with the given id,
the imported created_at (defaulted to now) and updated_at = now.
(fs.existsSync on the id-named file corresponds to the lookup finding a
record.) -/
def importStep (now : Nat) (acc : Store × Nat × Nat)
    (nd : ImportRecord) : Store × Nat × Nat :=
  if nd.id == "" || nd.title == "" || nd.content == "" then acc
  else
    match List.find? (fun n => n.id == nd.id) acc.1 with
    | some existing =>
      (writeRecord acc.1 (updatedNote now nd existing), acc.2.1, acc.2.2 + 1)
    | none =>
      (writeRecord acc.1 (importedNote now nd), acc.2.1 + 1, acc.2.2)

/-- src/index.js lines 973-1022, importNotes(filePath): fold importStep
over the parsed JSON array, returning the final directory state and the
(created, updated) counts that are logged. -/
def importNotes (imported : List ImportRecord) (now : Nat)
    (s : Store) : Store × Nat × Nat :=
  imported.foldl (importStep now) (s, 0, 0)

end IndexJs

/-!  Raw directory layer for getAllNotes on a directory that may hold
corrupt files.  A directory entry is a file name together with the
outcome of JSON.parse on its contents: Except.ok for a well-formed note
record, Except.error for contents that fail to parse. -/

/-- file.endsWith(".json"): the name's character list ends with the
characters of ".json". -/
def jsEndsWith (s t : String) : Bool :=
  leadMatch t.data.reverse s.data.reverse

/-- The files.forEach loop of getAllNotes (src/index.js lines 71-77 and
identically src/unnamed/part_003 lines 39-44): visit the entries in
listing order, skip names not ending in ".json", JSON.parse the rest and
push each parsed record; a parse failure throws, aborting the whole loop
and propagating out of getAllNotes. -/
def readNotesDir : List (String × Except Unit Note) → Except Unit (List Note)
  | [] => Except.ok []
  | (name, raw) :: rest =>
    if jsEndsWith name ".json" then
      match raw with
      | Except.error e => Except.error e
      | Except.ok n =>
        match readNotesDir rest with
        | Except.error e => Except.error e
        | Except.ok ns => Except.ok (n :: ns)
    else readNotesDir rest

/-- getAllNotes on a raw directory: the forEach loop followed by the
created_at-descending sort; any parse failure escapes as the thrown
exception. -/
def getAllNotesRaw (dir : List (String × Except Unit Note)) :
    Except Unit (List Note) :=
  (readNotesDir dir).map (fun ns => List.insertionSort createdAtDesc ns)

/-!  Confirm-deletion handlers of the View Navigator. -/

/-- The screens a confirm-deletion submission can land on. -/
inductive Screen where
  | list
  | message (text : String)
  | errorOverlay (text : String)
deriving Repr, DecidableEq

/-- src/index.js lines 720-735, the form.on submit handler of
confirmDeleteNoteUI: data.confirm (undefined when the textbox never
received input, modelled as Option) is defaulted to "", trimmed and
compared to "YES"; on a match deleteNote is invoked inside try/catch and
a message or error overlay is shown, otherwise the handler returns to
the note list untouched.  The result is (whether Store.delete was
invoked, the screen shown, the resulting directory state). -/
def confirmSubmitForm (confirm : Option String) (noteId : String)
    (s : Store) : Bool × Screen × Store :=
  if jsTrim (confirm.getD "") == "YES" then
    match IndexJs.deleteNote noteId s with
    | Except.ok s' => (true, Screen.message "Note deleted.", s')
    | Except.error e =>
      (true, Screen.errorOverlay ("Error deleting note: " ++ e), s)
  else
    (false, Screen.list, s)

/-- src/index.js lines 1423-1428, the prompt.input callback of
confirmDeleteNote: the typed value is compared to "YES" exactly — no
trimming — and only on equality is notes.deleteNote invoked; either way
the handler returns to the full-screen list. -/
def confirmSubmitPrompt (value : String) (noteId : String)
    (s : Store) : Bool × Screen × Store :=
  if value == "YES" then
    (true, Screen.list, (Notes.deleteNote noteId s).2)
  else
    (false, Screen.list, s)

/-!  Helper lemmas. -/

/-- The case-insensitive-substring predicate of the specification: the
lower-cased haystack contains the lower-cased needle as a contiguous
substring. -/
def CIContains (hay needle : String) : Prop :=
  ∃ l r, (jsToLower hay).data = l ++ (jsToLower needle).data ++ r

theorem leadMatch_iff (n h : List Char) :
    leadMatch n h = true ↔ ∃ r, h = n ++ r := by
  induction n generalizing h with
  | nil => simp [leadMatch]
  | cons a as ih =>
    cases h with
    | nil => simp [leadMatch]
    | cons b bs =>
      rw [show leadMatch (a :: as) (b :: bs) = (a == b && leadMatch as bs)
        from rfl]
      simp only [Bool.and_eq_true, beq_iff_eq, ih]
      constructor
      · rintro ⟨rfl, r, rfl⟩
        exact ⟨r, rfl⟩
      · rintro ⟨r, hr⟩
        have h1 : b = a ∧ bs = as ++ r := by simpa using hr
        exact ⟨h1.1.symm, r, h1.2⟩

theorem includesList_iff (h n : List Char) :
    includesList h n = true ↔ ∃ l r, h = l ++ n ++ r := by
  induction h with
  | nil =>
    simp only [includesList, leadMatch_iff]
    constructor
    · rintro ⟨r, hr⟩
      exact ⟨[], r, by simpa using hr⟩
    · rintro ⟨l, r, hr⟩
      obtain ⟨h1, h2⟩ := List.append_eq_nil.mp hr.symm
      obtain ⟨h3, h4⟩ := List.append_eq_nil.mp h1
      exact ⟨[], by simp [h3, h4]⟩
  | cons a t ih =>
    simp only [includesList, Bool.or_eq_true, ih, leadMatch_iff]
    constructor
    · rintro (⟨r, hr⟩ | ⟨l, r, hr⟩)
      · exact ⟨[], r, by simpa using hr⟩
      · exact ⟨a :: l, r, by simp [hr]⟩
    · rintro ⟨l, r, hr⟩
      cases l with
      | nil => exact Or.inl ⟨r, by simpa using hr⟩
      | cons c l' =>
        have hr' : a = c ∧ t = l' ++ n ++ r := by simpa using hr
        exact Or.inr ⟨l', r, hr'.2⟩

theorem includesList_nil (h : List Char) : includesList h [] = true := by
  cases h <;> simp [includesList, leadMatch]

theorem mem_writeRecord_elim {m note : Note} {s : Store}
    (hm : m ∈ writeRecord s note) : m = note ∨ m ∈ s := by
  unfold writeRecord at hm
  split at hm
  · obtain ⟨n, hn, he⟩ := List.mem_map.mp hm
    cases hid : n.id == note.id with
    | true => rw [if_pos (by simp [hid])] at he; exact Or.inl he.symm
    | false => rw [if_neg (by simp [hid])] at he; exact Or.inr (he ▸ hn)
  · rcases List.mem_append.mp hm with h1 | h2
    · exact Or.inr h1
    · exact Or.inl (List.mem_singleton.mp h2)

theorem note_mem_writeRecord (s : Store) (note : Note) :
    note ∈ writeRecord s note := by
  unfold writeRecord
  split
  · next hany =>
    obtain ⟨n, hn, hid⟩ := List.any_eq_true.mp hany
    exact List.mem_map.mpr ⟨n, hn, by simp [hid]⟩
  · exact List.mem_append.mpr (Or.inr (List.mem_singleton.mpr rfl))

theorem mem_writeRecord_of_ne {m note : Note} {s : Store} (hm : m ∈ s)
    (hne : (m.id == note.id) = false) : m ∈ writeRecord s note := by
  unfold writeRecord
  split
  · exact List.mem_map.mpr ⟨m, hm, by simp [hne]⟩
  · exact List.mem_append.mpr (Or.inl hm)

theorem writeRecord_append (s : Store) (note : Note)
    (h : s.any (fun n => n.id == note.id) = false) :
    writeRecord s note = s ++ [note] := by
  unfold writeRecord
  simp [h]

theorem find?_map_replace (note : Note) (s : Store) :
    List.find? (fun n => n.id == note.id)
      (s.map (fun n => if n.id == note.id then note else n)) =
    if s.any (fun n => n.id == note.id) then some note else none := by
  induction s with
  | nil => simp
  | cons a t ih =>
    rw [List.map_cons, List.any_cons]
    cases hid : a.id == note.id with
    | true =>
      rw [if_pos rfl, Bool.true_or, if_pos rfl]
      exact List.find?_cons_of_pos _ (by simp)
    | false =>
      rw [if_neg (by simp)]
      rw [List.find?_cons_of_neg _ (by simp [hid])]
      rw [Bool.false_or]
      exact ih

theorem find?_writeRecord_self (s : Store) (note : Note) :
    List.find? (fun n => n.id == note.id) (writeRecord s note) = some note := by
  unfold writeRecord
  split
  · next hany => rw [find?_map_replace]; simp [hany]
  · next hany =>
    have hnone : List.find? (fun n => n.id == note.id) s = none := by
      rw [List.find?_eq_none]
      intro x hx hpx
      exact hany (List.any_eq_true.mpr ⟨x, hx, hpx⟩)
    simp [List.find?_append, hnone, List.find?]

theorem find?_filter_ne (s : Store) (noteId : String) :
    List.find? (fun n => n.id == noteId)
      (s.filter (fun n => !(n.id == noteId))) = none := by
  rw [List.find?_eq_none]
  intro x hx
  have := (List.mem_filter.mp hx).2
  simpa using this

theorem any_filter_ne (s : Store) (noteId : String) :
    (s.filter (fun n => !(n.id == noteId))).any (fun n => n.id == noteId)
      = false := by
  rw [List.any_eq_false]
  intro x hx
  have := (List.mem_filter.mp hx).2
  simpa using this

theorem getAllNotes_pairwise (s : Store) :
    (IndexJs.getAllNotes s).Pairwise
      (fun a b => b.created_at ≤ a.created_at) := by
  exact List.sorted_insertionSort createdAtDesc s

theorem head?_insertionSort_max (l : Store) (note : Note) (hmem : note ∈ l)
    (hmax : ∀ m ∈ l, m ≠ note → m.created_at < note.created_at) :
    (List.insertionSort createdAtDesc l).head? = some note := by
  have hperm := List.perm_insertionSort createdAtDesc l
  have hmem' : note ∈ List.insertionSort createdAtDesc l :=
    hperm.mem_iff.mpr hmem
  have hpair := List.sorted_insertionSort createdAtDesc l
  cases hms : List.insertionSort createdAtDesc l with
  | nil => rw [hms] at hmem'; simp at hmem'
  | cons x t =>
    rw [hms] at hmem' hpair
    by_cases hx : x = note
    · simp [hx]
    · exfalso
      have hxl : x ∈ l := hperm.mem_iff.mp
        (by rw [hms]; exact List.mem_cons_self x t)
      have hlt : x.created_at < note.created_at := hmax x hxl hx
      have hnt : note ∈ t := by
        rcases List.mem_cons.mp hmem' with h | h
        · exact absurd h.symm hx
        · exact h
      have hle := (List.pairwise_cons.mp hpair).1 note hnt
      have : note.created_at ≤ x.created_at := hle
      omega

theorem importNotes_fresh (now : Nat) (l : List ImportRecord) :
    ∀ acc : Store × Nat × Nat,
    (∀ r ∈ l, keptRecord r = true →
      acc.1.any (fun n => n.id == r.id) = false) →
    (l.map (fun r => r.id)).Nodup →
    (List.foldl (IndexJs.importStep now) acc l).1 =
      acc.1 ++ (l.filter keptRecord).map (importedNote now) := by
  induction l with
  | nil => intro acc _ _; simp
  | cons r rest ih =>
    intro acc hfresh hnodup
    have hids : (∀ x ∈ rest, ¬ x.id = r.id) ∧
        (rest.map (fun r => r.id)).Nodup := by simpa using hnodup
    rw [List.foldl_cons]
    cases hkeep : keptRecord r with
    | false =>
      have hguard : (r.id == "" || r.title == "" || r.content == "") = true := by
        have h := congrArg (fun b => !b) hkeep
        simpa [keptRecord, Bool.not_not] using h
      have hstep : IndexJs.importStep now acc r = acc := by
        unfold IndexJs.importStep
        rw [if_pos hguard]
      rw [hstep,
        ih acc (fun r' hr' hk => hfresh r' (List.mem_cons_of_mem r hr') hk)
          hids.2]
      simp [List.filter_cons, hkeep]
    | true =>
      have hguard : (r.id == "" || r.title == "" || r.content == "") = false := by
        have h := congrArg (fun b => !b) hkeep
        simpa [keptRecord, Bool.not_not] using h
      have hany := hfresh r (List.mem_cons_self r rest) hkeep
      have hfind : List.find? (fun n => n.id == r.id) acc.1 = none := by
        rw [List.find?_eq_none]
        intro x hx hpx
        rw [List.any_eq_false] at hany
        exact hany x hx hpx
      have hstep : IndexJs.importStep now acc r =
          (writeRecord acc.1 (importedNote now r), acc.2.1 + 1, acc.2.2) := by
        unfold IndexJs.importStep
        rw [if_neg (by simp [hguard]), hfind]
      rw [hstep]
      have hfresh' : ∀ r' ∈ rest, keptRecord r' = true →
          (writeRecord acc.1 (importedNote now r)).any
            (fun n => n.id == r'.id) = false := by
        intro r' hr' hk
        rw [writeRecord_append acc.1 (importedNote now r) hany, List.any_append]
        have h1 := hfresh r' (List.mem_cons_of_mem r hr') hk
        have h2 : (r.id == r'.id) = false := by
          simpa using Ne.symm (hids.1 r' hr')
        simp [h1, importedNote, h2]
      rw [ih (writeRecord acc.1 (importedNote now r), acc.2.1 + 1, acc.2.2)
        hfresh' hids.2]
      rw [writeRecord_append acc.1 (importedNote now r) hany]
      simp [List.filter_cons, hkeep]

theorem importStep_inv (now : Nat) (acc : Store × Nat × Nat)
    (nd : ImportRecord)
    (hacc : ∀ n ∈ acc.1, n.created_at ≤ n.updated_at ∧ n.created_at ≤ now)
    (hnd : ∀ t, nd.created_at = some t → t ≤ now) :
    ∀ n ∈ (IndexJs.importStep now acc nd).1,
      n.created_at ≤ n.updated_at ∧ n.created_at ≤ now := by
  intro n hn
  unfold IndexJs.importStep at hn
  by_cases hguard : (nd.id == "" || nd.title == "" || nd.content == "") = true
  · rw [if_pos hguard] at hn
    exact hacc n hn
  · rw [if_neg hguard] at hn
    cases hfind : List.find? (fun m => m.id == nd.id) acc.1 with
    | some existing =>
      rw [hfind] at hn
      have hn' : n ∈ writeRecord acc.1 (updatedNote now nd existing) := hn
      rcases mem_writeRecord_elim hn' with rfl | hmem
      · have hcle : (updatedNote now nd existing).created_at ≤ now := by
          cases hc : nd.created_at with
          | some t => simpa [updatedNote, hc] using hnd t hc
          | none =>
            have := hacc existing (List.mem_of_find?_eq_some hfind)
            simpa [updatedNote, hc] using this.2
        exact ⟨hcle, hcle⟩
      · exact hacc n hmem
    | none =>
      rw [hfind] at hn
      have hn' : n ∈ writeRecord acc.1 (importedNote now nd) := hn
      rcases mem_writeRecord_elim hn' with rfl | hmem
      · have hcle : (importedNote now nd).created_at ≤ now := by
          cases hc : nd.created_at with
          | some t => simpa [importedNote, hc] using hnd t hc
          | none => simp [importedNote, hc]
        exact ⟨hcle, hcle⟩
      · exact hacc n hmem

theorem importNotes_inv (now : Nat) (l : List ImportRecord) :
    ∀ acc : Store × Nat × Nat,
    (∀ n ∈ acc.1, n.created_at ≤ n.updated_at ∧ n.created_at ≤ now) →
    (∀ r ∈ l, ∀ t, r.created_at = some t → t ≤ now) →
    ∀ n ∈ (List.foldl (IndexJs.importStep now) acc l).1,
      n.created_at ≤ n.updated_at ∧ n.created_at ≤ now := by
  induction l with
  | nil => intro acc hacc _; simpa using hacc
  | cons r rest ih =>
    intro acc hacc hrecs
    rw [List.foldl_cons]
    exact ih _
      (importStep_inv now acc r hacc
        (fun t ht => hrecs r (List.mem_cons_self r rest) t ht))
      (fun r' hr' t ht => hrecs r' (List.mem_cons_of_mem r hr') t ht)

/-- For a string, the JavaScript truthiness default x || y is the
identity when applied as (if x == "" then y else x) with y = x or with
x known non-empty; this is the content-defaulting of notes.js create. -/
theorem if_empty_eq (c : String) : (if c == "" then "" else c) = c := by
  cases hc : c == "" with
  | true => rw [if_pos rfl]; exact (eq_of_beq hc).symm
  | false => rw [if_neg (by simp)]

theorem notes_createNote_eq (title content : String) (now : Nat)
    (uuid : String) (s : Store) (htitle : title ≠ "") :
    Notes.createNote title content now uuid s =
      (⟨uuid, title, content, now, now⟩,
        writeRecord s ⟨uuid, title, content, now, now⟩) := by
  have htitle' : (title == "") = false := by simpa using htitle
  unfold Notes.createNote
  rw [if_neg (by simp [htitle']), if_empty_eq]

theorem matchesQuery_iff (q : String) (n : Note) :
    matchesQuery q n = true ↔ (CIContains n.title q ∨ CIContains n.content q) := by
  unfold matchesQuery jsIncludes CIContains
  rw [Bool.or_eq_true, includesList_iff, includesList_iff]

/-!  Claim theorems. -/

/-- C1 (amended): for a valid (non-empty) title and any content,
create(title, content) stamps both created_at and updated_at to the
current time and writes the record under the generated id (a UUID in
notes.js, time-plus-random-suffix in index.js); the notes.js variant
returns the created note while the index.js variant returns nothing
(undefined); a subsequent lookup of the generated id finds a note whose
title and content match the inputs and whose created_at equals
updated_at. -/
theorem create_then_getById
    (title content : String) (now : Nat) (uuid rand : String) (s : Store)
    (htitle : title ≠ "") :
    (Notes.createNote title content now uuid s).1 =
      ⟨uuid, title, content, now, now⟩ ∧
    Notes.getNoteById uuid (Notes.createNote title content now uuid s).2 =
      some ⟨uuid, title, content, now, now⟩ ∧
    (IndexJs.createNote title content now rand s).1 = none ∧
    List.find? (fun n => n.id == IndexJs.generateId now rand)
        (IndexJs.createNote title content now rand s).2 =
      some ⟨IndexJs.generateId now rand, title, content, now, now⟩ := by
  refine ⟨?_, ?_, rfl, ?_⟩
  · rw [notes_createNote_eq title content now uuid s htitle]
  · rw [notes_createNote_eq title content now uuid s htitle]
    exact find?_writeRecord_self s ⟨uuid, title, content, now, now⟩
  · exact find?_writeRecord_self s
      ⟨IndexJs.generateId now rand, title, content, now, now⟩

/-- Witness for C1 at a concrete input. -/
theorem create_then_getById_witness :
    ("Groceries" : String) ≠ "" ∧
    ((Notes.createNote "Groceries" "milk" 7 "u1" []).1 =
      ⟨"u1", "Groceries", "milk", 7, 7⟩ ∧
    Notes.getNoteById "u1" (Notes.createNote "Groceries" "milk" 7 "u1" []).2 =
      some ⟨"u1", "Groceries", "milk", 7, 7⟩ ∧
    (IndexJs.createNote "Groceries" "milk" 7 "r1" []).1 = none ∧
    List.find? (fun n => n.id == IndexJs.generateId 7 "r1")
        (IndexJs.createNote "Groceries" "milk" 7 "r1" []).2 =
      some ⟨IndexJs.generateId 7 "r1", "Groceries", "milk", 7, 7⟩) :=
  ⟨by decide, create_then_getById "Groceries" "milk" 7 "u1" "r1" [] (by decide)⟩

/-- Counterexample for C1 as stated: the index.js createNote has no
return statement, so its value is undefined rather than the created
note; and the generated id is not guaranteed fresh — a second create in
the same millisecond with the same random suffix produces the same id
and silently overwrites the first record, leaving one note instead of
two. -/
theorem create_value_undefined_and_id_collision :
    (IndexJs.createNote "a" "b" 0 "r" []).1 = none ∧
    ((IndexJs.createNote "c" "d" 0 "r"
        (IndexJs.createNote "a" "b" 0 "r" []).2).2).length = 1 := by decide

/-- C2 (amended): getAll() returns the parsed records of the directory
sorted by created_at descending (a sorted permutation of the directory
contents, identically in both store variants), and a note created at a
time strictly later than every existing note's creation time appears
first in the next getAll(); with a created_at tie, or with a stored
record dated later than the creation time, the stable sort can keep an
existing note first. -/
theorem getAll_sorted_desc_and_new_first
    (s : Store) (title content : String) (now : Nat) (rand : String)
    (hfresh : ∀ n ∈ s, n.created_at < now) :
    (IndexJs.getAllNotes s).Perm s ∧
    (IndexJs.getAllNotes s).Pairwise
      (fun a b => b.created_at ≤ a.created_at) ∧
    Notes.getAllNotes s = IndexJs.getAllNotes s ∧
    (IndexJs.getAllNotes (IndexJs.createNote title content now rand s).2).head? =
      some ⟨IndexJs.generateId now rand, title, content, now, now⟩ := by
  refine ⟨List.perm_insertionSort createdAtDesc s, getAllNotes_pairwise s,
    rfl, ?_⟩
  exact head?_insertionSort_max
    (writeRecord s ⟨IndexJs.generateId now rand, title, content, now, now⟩)
    ⟨IndexJs.generateId now rand, title, content, now, now⟩
    (note_mem_writeRecord s _)
    (fun m hm hne => by
      rcases mem_writeRecord_elim hm with rfl | hmem
      · exact absurd rfl hne
      · exact hfresh m hmem)

/-- Witness for C2 at a concrete input. -/
theorem getAll_sorted_desc_and_new_first_witness :
    (∀ n ∈ ([⟨"b", "x", "y", 0, 0⟩] : Store), n.created_at < 3) ∧
    ((IndexJs.getAllNotes [⟨"b", "x", "y", 0, 0⟩]).Perm
      [⟨"b", "x", "y", 0, 0⟩] ∧
    (IndexJs.getAllNotes [⟨"b", "x", "y", 0, 0⟩]).Pairwise
      (fun a b => b.created_at ≤ a.created_at) ∧
    Notes.getAllNotes [⟨"b", "x", "y", 0, 0⟩] =
      IndexJs.getAllNotes [⟨"b", "x", "y", 0, 0⟩] ∧
    (IndexJs.getAllNotes
        (IndexJs.createNote "t" "c" 3 "r" [⟨"b", "x", "y", 0, 0⟩]).2).head? =
      some ⟨IndexJs.generateId 3 "r", "t", "c", 3, 3⟩) :=
  ⟨by decide,
    getAll_sorted_desc_and_new_first [⟨"b", "x", "y", 0, 0⟩] "t" "c" 3 "r"
      (by decide)⟩

/-- Counterexample for C2 as stated: the new-note-first part does not
hold for every directory state.  Creating a note in the same
millisecond as an existing note ties on created_at, and the stable sort
keeps directory order on ties, so the pre-existing note stays first in
getAll() and the newly created note does not.  (A stored record dated
later than the creation time — reachable by importing a future-dated
record — keeps the new note out of first place in the same way.) -/
theorem new_note_not_first_on_tie :
    (IndexJs.getAllNotes
        (IndexJs.createNote "t" "c" 5 "r" [⟨"b", "x", "y", 5, 5⟩]).2).head? =
      some ⟨"b", "x", "y", 5, 5⟩ ∧
    (⟨"b", "x", "y", 5, 5⟩ : Note) ≠
      ⟨IndexJs.generateId 5 "r", "t", "c", 5, 5⟩ := by decide

/-- C3: search(q) returns exactly those notes of getAll() whose title or
content contains q as a case-insensitive substring, and returns them in
the same descending-created_at order (it is a sublist of getAll());
the notes.js variant computes the same list as the index.js one. -/
theorem search_exact_ordered_subset (q : String) (s : Store) :
    List.Sublist (IndexJs.searchNotes q s) (IndexJs.getAllNotes s) ∧
    (∀ n, n ∈ IndexJs.searchNotes q s ↔
      n ∈ IndexJs.getAllNotes s ∧
        (CIContains n.title q ∨ CIContains n.content q)) ∧
    Notes.searchNotes q s = IndexJs.searchNotes q s := by
  refine ⟨List.filter_sublist _, ?_, rfl⟩
  intro n
  rw [show IndexJs.searchNotes q s =
    (IndexJs.getAllNotes s).filter (matchesQuery q) from rfl]
  rw [List.mem_filter, matchesQuery_iff]

/-- C10: searching with the empty string matches every note (the empty
string is a substring of every lower-cased title), so search("") equals
getAll() in membership and order, in both store variants; the store does
not special-case the empty query. -/
theorem search_empty_query (s : Store) :
    IndexJs.searchNotes "" s = IndexJs.getAllNotes s ∧
    Notes.searchNotes "" s = Notes.getAllNotes s := by
  have hall : ∀ n : Note, matchesQuery "" n = true := by
    intro n
    simp [matchesQuery, jsIncludes, show (jsToLower "").data = [] from rfl,
      includesList_nil]
  constructor <;> exact List.filter_eq_self.mpr (fun n _ => hall n)

/-- The in-place mutation performed by both updateNote bodies: title and
content replaced, updated_at restamped, id and created_at untouched. -/
def replacedNote (note : Note) (title content : String) (now : Nat) : Note :=
  { note with title := title, content := content, updated_at := now }

/-- C4 (amended): when a record with the given id exists, update replaces
its stored title and content, restamps updated_at to the current time
(so the new updated_at is at least the old one whenever the clock has
not gone backwards), preserves id and created_at, leaves every other
record in place, and writes the record back; the notes.js variant
returns the updated record while the index.js variant returns nothing
(undefined). -/
theorem update_replaces_preserves_frame
    (noteId title content : String) (now : Nat) (s : Store) (note : Note)
    (hfind : List.find? (fun n => n.id == noteId) s = some note)
    (hclock : note.updated_at ≤ now) :
    IndexJs.updateNote noteId title content now s =
      Except.ok (none, writeRecord s (replacedNote note title content now)) ∧
    Notes.updateNote noteId title content now s =
      Except.ok (replacedNote note title content now,
        writeRecord s (replacedNote note title content now)) ∧
    (replacedNote note title content now).id = note.id ∧
    (replacedNote note title content now).created_at = note.created_at ∧
    note.updated_at ≤ (replacedNote note title content now).updated_at ∧
    List.find? (fun n => n.id == noteId)
        (writeRecord s (replacedNote note title content now)) =
      some (replacedNote note title content now) ∧
    (∀ m ∈ s, m.id ≠ noteId →
      m ∈ writeRecord s (replacedNote note title content now)) ∧
    (∀ m ∈ writeRecord s (replacedNote note title content now),
      m = replacedNote note title content now ∨ m ∈ s) := by
  have hid : note.id = noteId := by simpa using List.find?_some hfind
  refine ⟨?_, ?_, rfl, rfl, hclock, ?_, ?_, ?_⟩
  · unfold IndexJs.updateNote
    rw [hfind]
    rfl
  · unfold Notes.updateNote Notes.getNoteById
    rw [hfind]
    rfl
  · have he : (replacedNote note title content now).id = noteId := hid
    rw [← he]
    exact find?_writeRecord_self s (replacedNote note title content now)
  · intro m hm hne
    exact mem_writeRecord_of_ne hm
      (beq_eq_false_iff_ne.mpr (fun he => hne (he.trans hid)))
  · intro m hm
    exact mem_writeRecord_elim hm

/-- Witness for C4 at a concrete input. -/
theorem update_replaces_preserves_frame_witness :
    List.find? (fun n => n.id == "a") ([⟨"a", "t", "c", 1, 2⟩] : Store) =
      some ⟨"a", "t", "c", 1, 2⟩ ∧
    (⟨"a", "t", "c", 1, 2⟩ : Note).updated_at ≤ 5 ∧
    (IndexJs.updateNote "a" "t2" "c2" 5 [⟨"a", "t", "c", 1, 2⟩] =
      Except.ok (none, writeRecord [⟨"a", "t", "c", 1, 2⟩]
        (replacedNote ⟨"a", "t", "c", 1, 2⟩ "t2" "c2" 5)) ∧
    Notes.updateNote "a" "t2" "c2" 5 [⟨"a", "t", "c", 1, 2⟩] =
      Except.ok (replacedNote ⟨"a", "t", "c", 1, 2⟩ "t2" "c2" 5,
        writeRecord [⟨"a", "t", "c", 1, 2⟩]
          (replacedNote ⟨"a", "t", "c", 1, 2⟩ "t2" "c2" 5)) ∧
    (replacedNote ⟨"a", "t", "c", 1, 2⟩ "t2" "c2" 5).id =
      (⟨"a", "t", "c", 1, 2⟩ : Note).id ∧
    (replacedNote ⟨"a", "t", "c", 1, 2⟩ "t2" "c2" 5).created_at =
      (⟨"a", "t", "c", 1, 2⟩ : Note).created_at ∧
    (⟨"a", "t", "c", 1, 2⟩ : Note).updated_at ≤
      (replacedNote ⟨"a", "t", "c", 1, 2⟩ "t2" "c2" 5).updated_at ∧
    List.find? (fun n => n.id == "a")
        (writeRecord [⟨"a", "t", "c", 1, 2⟩]
          (replacedNote ⟨"a", "t", "c", 1, 2⟩ "t2" "c2" 5)) =
      some (replacedNote ⟨"a", "t", "c", 1, 2⟩ "t2" "c2" 5) ∧
    (∀ m ∈ ([⟨"a", "t", "c", 1, 2⟩] : Store), m.id ≠ "a" →
      m ∈ writeRecord [⟨"a", "t", "c", 1, 2⟩]
        (replacedNote ⟨"a", "t", "c", 1, 2⟩ "t2" "c2" 5)) ∧
    (∀ m ∈ writeRecord [⟨"a", "t", "c", 1, 2⟩]
        (replacedNote ⟨"a", "t", "c", 1, 2⟩ "t2" "c2" 5),
      m = replacedNote ⟨"a", "t", "c", 1, 2⟩ "t2" "c2" 5 ∨
        m ∈ ([⟨"a", "t", "c", 1, 2⟩] : Store))) :=
  ⟨by decide, by decide,
    update_replaces_preserves_frame "a" "t2" "c2" 5 [⟨"a", "t", "c", 1, 2⟩]
      ⟨"a", "t", "c", 1, 2⟩ (by decide) (by decide)⟩

/-- Counterexample for C4 as stated: index.js updateNote has no return
statement, so on success its value is undefined rather than the updated
record (the store is nonetheless updated in place). -/
theorem update_value_undefined :
    IndexJs.updateNote "a" "t2" "c2" 5 [⟨"a", "t", "c", 1, 1⟩] =
      Except.ok (none, [⟨"a", "t2", "c2", 1, 5⟩]) := rfl

/-- C5 (amended): for an id with no stored record, update fails with a
not-found error in both store variants and delete fails — by throwing in
the index.js store, and by returning false with the store unchanged in
the notes.js store; after a successful delete the id no longer resolves
(getById gives not-found) and a second delete of the same id fails in
the same per-variant way. -/
theorem notfound_update_delete_redelete
    (noteId title content : String) (now : Nat) (s : Store) :
    (List.find? (fun n => n.id == noteId) s = none →
      IndexJs.updateNote noteId title content now s =
        Except.error "Note does not exist" ∧
      Notes.updateNote noteId title content now s =
        Except.error "Note not found" ∧
      IndexJs.deleteNote noteId s = Except.error "Note not found" ∧
      Notes.deleteNote noteId s = (false, s)) ∧
    (∀ s', IndexJs.deleteNote noteId s = Except.ok s' →
      List.find? (fun n => n.id == noteId) s' = none ∧
      IndexJs.deleteNote noteId s' = Except.error "Note not found") ∧
    (∀ s', Notes.deleteNote noteId s = (true, s') →
      Notes.getNoteById noteId s' = none ∧
      Notes.deleteNote noteId s' = (false, s')) := by
  refine ⟨?_, ?_, ?_⟩
  · intro hnone
    have hany : s.any (fun n => n.id == noteId) = false := by
      rw [List.any_eq_false]
      intro x hx hpx
      exact absurd hpx ((List.find?_eq_none.mp hnone) x hx)
    refine ⟨?_, ?_, ?_, ?_⟩
    · unfold IndexJs.updateNote
      rw [hnone]
    · unfold Notes.updateNote Notes.getNoteById
      rw [hnone]
    · unfold IndexJs.deleteNote
      rw [if_neg (by simp [hany])]
    · unfold Notes.deleteNote
      rw [if_neg (by simp [hany])]
  · intro s' hdel
    unfold IndexJs.deleteNote at hdel
    by_cases hany : s.any (fun n => n.id == noteId) = true
    · rw [if_pos hany] at hdel
      have hs' : s.filter (fun n => !(n.id == noteId)) = s' :=
        Except.ok.inj hdel
      subst hs'
      refine ⟨find?_filter_ne s noteId, ?_⟩
      unfold IndexJs.deleteNote
      rw [if_neg (by simp [any_filter_ne s noteId])]
    · rw [if_neg hany] at hdel
      simp at hdel
  · intro s' hdel
    unfold Notes.deleteNote at hdel
    by_cases hany : s.any (fun n => n.id == noteId) = true
    · rw [if_pos hany] at hdel
      injection hdel with h1 h2
      subst h2
      constructor
      · exact find?_filter_ne s noteId
      · unfold Notes.deleteNote
        rw [if_neg (by simp [any_filter_ne s noteId])]
    · rw [if_neg hany] at hdel
      injection hdel with h1 h2
      exact Bool.noConfusion h1

/-- Witness for C5 at concrete inputs: a missing id on the empty store,
and a delete followed by a re-delete of the same id. -/
theorem notfound_update_delete_redelete_witness :
    (List.find? (fun n => n.id == "x") ([] : Store) = none ∧
      (IndexJs.updateNote "x" "t" "c" 0 [] =
        Except.error "Note does not exist" ∧
      Notes.updateNote "x" "t" "c" 0 [] = Except.error "Note not found" ∧
      IndexJs.deleteNote "x" [] = Except.error "Note not found" ∧
      Notes.deleteNote "x" [] = (false, []))) ∧
    (IndexJs.deleteNote "a" [⟨"a", "t", "c", 1, 1⟩] = Except.ok [] ∧
      (List.find? (fun n => n.id == "a") ([] : Store) = none ∧
      IndexJs.deleteNote "a" [] = Except.error "Note not found")) ∧
    (Notes.deleteNote "a" [⟨"a", "t", "c", 1, 1⟩] = (true, []) ∧
      (Notes.getNoteById "a" [] = none ∧
      Notes.deleteNote "a" [] = (false, []))) :=
  ⟨⟨by decide, (notfound_update_delete_redelete "x" "t" "c" 0 []).1 (by decide)⟩,
   ⟨rfl, (notfound_update_delete_redelete "a" "t" "c" 0
      [⟨"a", "t", "c", 1, 1⟩]).2.1 [] rfl⟩,
   ⟨rfl, (notfound_update_delete_redelete "a" "t" "c" 0
      [⟨"a", "t", "c", 1, 1⟩]).2.2 [] rfl⟩⟩

/-- Counterexample for C5 as stated: deleting a missing id in the
notes.js store does not fail with a NotFoundError — deleteNote there has
no throw path and signals the missing record by returning false with
the store unchanged (the index.js store does throw). -/
theorem delete_missing_returns_false_not_throw :
    Notes.deleteNote "x" [] = (false, []) ∧
    IndexJs.deleteNote "x" [] = Except.error "Note not found" :=
  ⟨rfl, rfl⟩

/-- C6 (amended): exporting all notes and importing the file into an
empty store reproduces, with id, title, content and created_at
preserved and updated_at restamped to the import time, exactly the
notes whose id, title and content are all non-empty — the import loop
skips records with a falsy id, title or content, and every other note
of the store survives the round trip.  (Ids are pairwise distinct in a
directory, one file per id.) -/
theorem export_import_roundtrip
    (s : Store) (now : Nat)
    (hids : (s.map (fun n => n.id)).Nodup) :
    (IndexJs.importNotes ((IndexJs.exportNotes s).map noteToImport)
        now []).1.Perm
      ((s.filter (fun n => keptRecord (noteToImport n))).map
        (fun n => { n with updated_at := now })) := by
  have hperm : (IndexJs.exportNotes s).Perm s :=
    List.perm_insertionSort createdAtDesc s
  have h2 : ∀ r ∈ (IndexJs.exportNotes s).map noteToImport,
      keptRecord r = true →
      (([] : Store).any (fun n => n.id == r.id)) = false := fun r _ _ => rfl
  have h3 : (((IndexJs.exportNotes s).map noteToImport).map
      (fun r => r.id)).Nodup := by
    rw [List.map_map]
    exact ((hperm.map (fun n => n.id)).nodup_iff).mpr hids
  have hres := importNotes_fresh now
    ((IndexJs.exportNotes s).map noteToImport) ([], 0, 0) h2 h3
  rw [show IndexJs.importNotes ((IndexJs.exportNotes s).map noteToImport)
      now [] =
    List.foldl (IndexJs.importStep now) ([], 0, 0)
      ((IndexJs.exportNotes s).map noteToImport) from rfl]
  rw [hres, List.nil_append, List.filter_map, List.map_map]
  rw [show ((importedNote now) ∘ noteToImport) =
    (fun n : Note => { n with updated_at := now }) from funext (fun n => rfl)]
  exact (hperm.filter _).map _

/-- Witness for C6 at a concrete mixed store: one note with non-empty
content survives the round trip, one with empty content is dropped. -/
theorem export_import_roundtrip_witness :
    (([⟨"a", "t", "x", 3, 4⟩, ⟨"b", "u", "", 1, 2⟩] : Store).map
      (fun n => n.id)).Nodup ∧
    (IndexJs.importNotes
        ((IndexJs.exportNotes [⟨"a", "t", "x", 3, 4⟩, ⟨"b", "u", "", 1, 2⟩]).map
          noteToImport) 9 []).1.Perm
      ((([⟨"a", "t", "x", 3, 4⟩, ⟨"b", "u", "", 1, 2⟩] : Store).filter
        (fun n => keptRecord (noteToImport n))).map
        (fun n => { n with updated_at := 9 })) :=
  ⟨by decide,
    export_import_roundtrip [⟨"a", "t", "x", 3, 4⟩, ⟨"b", "u", "", 1, 2⟩] 9
      (by decide)⟩

/-- Counterexample for C6 as stated: a store holding one note with empty
content does not survive the round trip — the import loop treats the
empty content as a missing field and skips the record, so importing the
export of that store into an empty store yields an empty store. -/
theorem roundtrip_drops_empty_content :
    (IndexJs.importNotes
        ((IndexJs.exportNotes [⟨"a", "t", "", 3, 3⟩]).map noteToImport)
        9 []).1 = [] ∧
    ([⟨"a", "t", "", 3, 3⟩] : Store) ≠ [] :=
  ⟨rfl, by decide⟩

/-- C7: getAllNotes does not scope a parse failure to the offending
file — the unguarded JSON.parse in the forEach loop throws, the
exception propagates out of getAllNotes, and no notes at all are
returned, even though the same directory without the corrupt file
yields the good record.  This contradicts the claim that every other
note record is still returned. -/
theorem getAll_crashes_on_corrupt_file :
    getAllNotesRaw [("good.json", Except.ok ⟨"g", "t", "c", 1, 1⟩),
        ("bad.json", Except.error ())] = Except.error () ∧
    getAllNotesRaw [("good.json", Except.ok ⟨"g", "t", "c", 1, 1⟩)] =
      Except.ok [⟨"g", "t", "c", 1, 1⟩] :=
  ⟨rfl, rfl⟩

/-- C8 (amended): the form-based confirm dialog invokes Store.delete
exactly when the submitted text equals "YES" after trimming surrounding
whitespace, while the prompt-based variant invokes it exactly when the
text equals "YES" with no trimming; in both, any other input (including
lowercase "yes" and the empty string) cancels the deletion, returns to
the list screen and leaves the store untouched without calling
Store.delete. -/
theorem confirm_delete_requires_exact_token
    (input noteId : String) (s : Store) :
    ((confirmSubmitForm (some input) noteId s).1 = true ↔
      jsTrim input = "YES") ∧
    ((confirmSubmitPrompt input noteId s).1 = true ↔ input = "YES") ∧
    (jsTrim input ≠ "YES" →
      confirmSubmitForm (some input) noteId s = (false, Screen.list, s)) ∧
    (input ≠ "YES" →
      confirmSubmitPrompt input noteId s = (false, Screen.list, s)) := by
  have hformT : jsTrim input = "YES" →
      (confirmSubmitForm (some input) noteId s).1 = true := by
    intro h
    unfold confirmSubmitForm
    rw [if_pos (by simpa using h)]
    cases IndexJs.deleteNote noteId s <;> rfl
  have hformF : jsTrim input ≠ "YES" →
      confirmSubmitForm (some input) noteId s = (false, Screen.list, s) := by
    intro h
    unfold confirmSubmitForm
    rw [if_neg (by simpa using h)]
  have hpromptT : input = "YES" →
      (confirmSubmitPrompt input noteId s).1 = true := by
    intro h
    unfold confirmSubmitPrompt
    rw [if_pos (by simpa using h)]
  have hpromptF : input ≠ "YES" →
      confirmSubmitPrompt input noteId s = (false, Screen.list, s) := by
    intro h
    unfold confirmSubmitPrompt
    rw [if_neg (by simpa using h)]
  refine ⟨⟨fun h1 => ?_, hformT⟩, ⟨fun h1 => ?_, hpromptT⟩, hformF, hpromptF⟩
  · by_contra hne
    rw [hformF hne] at h1
    exact Bool.noConfusion h1
  · by_contra hne
    rw [hpromptF hne] at h1
    exact Bool.noConfusion h1

/-- Witness for C8: the end-to-end lowercase scenario — submitting "yes"
cancels in both variants, the note is kept and the UI returns to the
list. -/
theorem confirm_delete_requires_exact_token_witness :
    jsTrim "yes" ≠ "YES" ∧
    confirmSubmitForm (some "yes") "a" [⟨"a", "t", "c", 1, 1⟩] =
      (false, Screen.list, [⟨"a", "t", "c", 1, 1⟩]) ∧
    ("yes" : String) ≠ "YES" ∧
    confirmSubmitPrompt "yes" "a" [⟨"a", "t", "c", 1, 1⟩] =
      (false, Screen.list, [⟨"a", "t", "c", 1, 1⟩]) :=
  ⟨by decide,
   (confirm_delete_requires_exact_token "yes" "a"
      [⟨"a", "t", "c", 1, 1⟩]).2.2.1 (by decide),
   by decide,
   (confirm_delete_requires_exact_token "yes" "a"
      [⟨"a", "t", "c", 1, 1⟩]).2.2.2 (by decide)⟩

/-- Counterexample for C8 as stated: in the prompt-based variant the
submitted text " YES" trims to the exact token, yet Store.delete is not
invoked — the comparison there is exact, with no trimming — so the
claimed iff (delete invoked exactly when the text trims to "YES") fails
on this variant. -/
theorem trimmed_token_ignored_in_prompt_variant :
    jsTrim " YES" = "YES" ∧
    confirmSubmitPrompt " YES" "a" [⟨"a", "t", "c", 1, 1⟩] =
      (false, Screen.list, [⟨"a", "t", "c", 1, 1⟩]) := by decide

/-- The data-model invariant of the specification: a persisted record is
never updated before it is created. -/
def StoreInv (s : Store) : Prop :=
  ∀ n ∈ s, n.created_at ≤ n.updated_at

/-- C9 (amended): create (both variants) writes records with equal
timestamps and preserves the invariant created_at <= updated_at; update
(both variants) preserves it whenever the clock has not gone backwards
past a stored updated_at; the bulk-import upsert preserves it provided
every imported record's created_at is at most the import time. -/
theorem created_le_updated_invariant
    (noteId title content : String) (now : Nat) (rand uuid : String)
    (s : Store) (l : List ImportRecord)
    (hinv : StoreInv s) :
    StoreInv (IndexJs.createNote title content now rand s).2 ∧
    StoreInv (Notes.createNote title content now uuid s).2 ∧
    (∀ v s', IndexJs.updateNote noteId title content now s =
        Except.ok (v, s') →
      (∀ n ∈ s, n.updated_at ≤ now) → StoreInv s') ∧
    (∀ r s', Notes.updateNote noteId title content now s =
        Except.ok (r, s') →
      (∀ n ∈ s, n.updated_at ≤ now) → StoreInv s') ∧
    ((∀ n ∈ s, n.created_at ≤ now) →
      (∀ rec ∈ l, ∀ t, rec.created_at = some t → t ≤ now) →
      StoreInv (IndexJs.importNotes l now s).1) := by
  refine ⟨?_, ?_, ?_, ?_, ?_⟩
  · intro n hn
    rcases mem_writeRecord_elim hn with rfl | h
    · exact Nat.le_refl now
    · exact hinv n h
  · intro n hn
    rcases mem_writeRecord_elim hn with rfl | h
    · exact Nat.le_refl now
    · exact hinv n h
  · intro v s' hupd hclock
    unfold IndexJs.updateNote at hupd
    cases hfind : List.find? (fun n => n.id == noteId) s with
    | none => rw [hfind] at hupd; simp at hupd
    | some note =>
      rw [hfind] at hupd
      have hupd' : (Except.ok
          (none, writeRecord s (replacedNote note title content now)) :
            Except String (Option Note × Store)) =
          Except.ok (v, s') := hupd
      have hpair := Except.ok.inj hupd'
      have hs' : writeRecord s (replacedNote note title content now) = s' :=
        congrArg Prod.snd hpair
      subst hs'
      intro n hn
      rcases mem_writeRecord_elim hn with rfl | h
      · have hmem := List.mem_of_find?_eq_some hfind
        exact Nat.le_trans (hinv note hmem) (hclock note hmem)
      · exact hinv n h
  · intro r s' hupd hclock
    unfold Notes.updateNote Notes.getNoteById at hupd
    cases hfind : List.find? (fun n => n.id == noteId) s with
    | none => rw [hfind] at hupd; simp at hupd
    | some note =>
      rw [hfind] at hupd
      have hupd' : (Except.ok
          (replacedNote note title content now,
            writeRecord s (replacedNote note title content now)) :
            Except String (Note × Store)) =
          Except.ok (r, s') := hupd
      have hpair := Except.ok.inj hupd'
      have hs' : writeRecord s (replacedNote note title content now) = s' :=
        congrArg Prod.snd hpair
      subst hs'
      intro n hn
      rcases mem_writeRecord_elim hn with rfl | h
      · have hmem := List.mem_of_find?_eq_some hfind
        exact Nat.le_trans (hinv note hmem) (hclock note hmem)
      · exact hinv n h
  · intro hcreated hrecs
    intro n hn
    exact (importNotes_inv now l (s, 0, 0)
      (fun m hm => ⟨hinv m hm, hcreated m hm⟩) hrecs n hn).1

/-- Witness for C9 at concrete inputs. -/
theorem created_le_updated_invariant_witness :
    StoreInv [⟨"a", "t", "c", 1, 2⟩] ∧
    (StoreInv (IndexJs.createNote "t2" "c2" 5 "r"
      [⟨"a", "t", "c", 1, 2⟩]).2 ∧
    StoreInv (Notes.createNote "t2" "c2" 5 "u" [⟨"a", "t", "c", 1, 2⟩]).2 ∧
    StoreInv (writeRecord [⟨"a", "t", "c", 1, 2⟩]
      (replacedNote ⟨"a", "t", "c", 1, 2⟩ "t2" "c2" 5)) ∧
    StoreInv (IndexJs.importNotes [⟨"b", "u", "v", some 3⟩] 5
      [⟨"a", "t", "c", 1, 2⟩]).1) := by
  have h := created_le_updated_invariant "a" "t2" "c2" 5 "r" "u"
    [⟨"a", "t", "c", 1, 2⟩] [⟨"b", "u", "v", some 3⟩]
    (by intro n hn; simp at hn; subst hn; decide)
  refine ⟨by intro n hn; simp at hn; subst hn; decide, h.1, h.2.1, ?_, ?_⟩
  · exact h.2.2.1 none
      (writeRecord [⟨"a", "t", "c", 1, 2⟩]
        (replacedNote ⟨"a", "t", "c", 1, 2⟩ "t2" "c2" 5)) rfl
      (by intro n hn; simp at hn; subst hn; decide)
  · exact h.2.2.2.2 (by intro n hn; simp at hn; subst hn; decide)
      (by intro rec hrec t ht; simp at hrec; subst hrec;
          injection ht with ht'; omega)

/-- Counterexample for C9 as stated: importing a record whose created_at
lies in the future of the import time writes a note with
created_at = 5 but updated_at = 0, violating created_at <= updated_at. -/
theorem import_future_created_at_violates :
    (IndexJs.importNotes [⟨"a", "t", "c", some 5⟩] 0 []).1 =
      [⟨"a", "t", "c", 5, 0⟩] ∧
    ¬ StoreInv [⟨"a", "t", "c", 5, 0⟩] :=
  ⟨rfl, fun h =>
    absurd (h ⟨"a", "t", "c", 5, 0⟩ (List.mem_singleton.mpr rfl))
      (by decide)⟩
